import Mathlib

/-!
Verification development for the teams-toolkit repository.

Embedded components:
* `packages/vscode-extension/src/chat/officeCommon/skills/codeGenerator.ts`
  (the `CodeGenerator` skill: `invoke`, `userInputBreakdownTaskAsync`,
  `generateCode`);
* `packages/fx-core/src/component/resource/azureFunction.ts`
  (the `deploy` action's `execute` callback).

Model responses are lists of characters.  JavaScript regular-expression
matching of the two fence patterns used by the source, JavaScript string
trimming, JSON.parse, and Node's `path.join` are embedded explicitly below.
-/

/-! ## JavaScript string primitives -/

/-- Whitespace stripped by JavaScript `String.prototype.trim`
(the common code points). -/
def jsWhitespaceChar (c : Char) : Bool :=
  c = ' ' || c = '\t' || c = '\n' || c = '\r' || c = '\x0B' || c = '\x0C'

/-- JavaScript `String.prototype.trim` on a character list. -/
def jsTrim (s : List Char) : List Char :=
  ((s.dropWhile jsWhitespaceChar).reverse.dropWhile jsWhitespaceChar).reverse

/-- Truthiness of a JavaScript string value: only `""` is falsy. -/
def jsTruthyString (s : String) : Bool :=
  if s = "" then false else true

/-- Truthiness of a JavaScript array value: every array object (including
the empty array `[]`) is truthy. -/
def jsTruthyArray (_xs : List String) : Bool :=
  true

/-! ## Fenced-block extraction

The source extracts fenced blocks with the regular expressions
`/```json([\s\S]*?)```/` and `/```typescript([\s\S]*?)```/`
(`String.prototype.match`).  The match, when it exists, starts at the
leftmost occurrence of the opening fence, and the lazy capture ends at the
first occurrence of three backticks after it.  `afterFirst` and
`beforeFirst` realise that leftmost-first, shortest-capture semantics. -/

/-- Remainder of the list after the first occurrence of `pat`;
`none` when `pat` does not occur. -/
def afterFirst (pat : List Char) : List Char → Option (List Char)
  | [] => if pat.isPrefixOf ([] : List Char) then some [] else none
  | c :: rest =>
    if pat.isPrefixOf (c :: rest) then some (List.drop pat.length (c :: rest))
    else afterFirst pat rest

/-- Prefix of the list before the first occurrence of `pat`;
`none` when `pat` does not occur. -/
def beforeFirst (pat : List Char) : List Char → Option (List Char)
  | [] => if pat.isPrefixOf ([] : List Char) then some [] else none
  | c :: rest =>
    if pat.isPrefixOf (c :: rest) then some []
    else (beforeFirst pat rest).map (fun b => c :: b)

/-- The list `s` contains `pat` as a contiguous subsequence. -/
def ContainsSeq (pat s : List Char) : Prop :=
  ∃ pre post, s = pre ++ pat ++ post

/-- Closing fence: three backticks. -/
def closeFence : List Char := "```".toList

/-- Opening fence for a tagged block: three backticks followed by the tag. -/
def openFence (tag : List Char) : List Char := closeFence ++ tag

/-- Tag of the JSON fence pattern in `userInputBreakdownTaskAsync`. -/
def jsonTag : List Char := "json".toList

/-- Tag of the TypeScript fence pattern in `generateCode`. -/
def typescriptTag : List Char := "typescript".toList

/-- Capture group of the JavaScript match
`` response.match(/```TAG([\s\S]*?)```/) ``: the text between the first
occurrence of the opening fence and the first closing fence after it. -/
def fencedCapture (tag : List Char) (s : List Char) : Option (List Char) :=
  match afterFirst (openFence tag) s with
  | none => none
  | some rest => beforeFirst closeFence rest

/-- The response contains a complete fenced block with the given tag. -/
def HasFencedBlock (tag s : List Char) : Prop :=
  ∃ pre mid post, s = pre ++ openFence tag ++ mid ++ closeFence ++ post

theorem afterFirst_some (pat : List Char) :
    ∀ (s r : List Char), afterFirst pat s = some r →
      ∃ pre, s = pre ++ pat ++ r ∧
        ∀ pre2 post2, s = pre2 ++ pat ++ post2 → pre.length ≤ pre2.length := by
  intro s
  induction s with
  | nil =>
    intro r h
    simp only [afterFirst] at h
    split at h
    · rename_i hp
      have hpat : pat = [] := by
        cases pat with
        | nil => rfl
        | cons a t => simp [List.isPrefixOf] at hp
      refine ⟨[], ?_, ?_⟩
      · simp at h
        simp [hpat, ← h]
      · intro pre2 post2 _
        simp
    · exact absurd h (by simp)
  | cons c rest ih =>
    intro r h
    simp only [afterFirst] at h
    split at h
    · rename_i hp
      have hpre : pat <+: c :: rest := List.isPrefixOf_iff_prefix.mp hp
      have hdec : pat ++ List.drop pat.length (c :: rest) = c :: rest :=
        List.prefix_iff_eq_append.mp hpre
      have hr : r = List.drop pat.length (c :: rest) := by
        simpa using h.symm
      refine ⟨[], ?_, ?_⟩
      · simp [hr, hdec]
      · intro pre2 post2 _
        simp
    · rename_i hp
      obtain ⟨pre, hpre, hmin⟩ := ih r h
      refine ⟨c :: pre, by simp [hpre], ?_⟩
      intro pre2 post2 heq
      cases pre2 with
      | nil =>
        exfalso
        apply hp
        apply List.isPrefixOf_iff_prefix.mpr
        exact ⟨post2, by simpa using heq.symm⟩
      | cons d pre2' =>
        have hd : d = c ∧ rest = pre2' ++ pat ++ post2 := by
          constructor
          · have := congrArg (fun l => List.head? l) heq
            simpa using this.symm
          · have := congrArg (fun l => List.tail l) heq
            simpa using this
        have := hmin pre2' post2 hd.2
        simpa using Nat.succ_le_succ this

theorem afterFirst_isSome_of_contains (pat : List Char) :
    ∀ (s : List Char), ContainsSeq pat s → (afterFirst pat s).isSome := by
  intro s
  induction s with
  | nil =>
    rintro ⟨pre, post, h⟩
    have hpat : pat = [] := by
      cases pre <;> cases pat <;> simp_all
    simp [afterFirst, hpat, List.isPrefixOf]
  | cons c rest ih =>
    rintro ⟨pre, post, h⟩
    simp only [afterFirst]
    split
    · simp
    · rename_i hp
      cases pre with
      | nil =>
        exfalso
        apply hp
        apply List.isPrefixOf_iff_prefix.mpr
        exact ⟨post, by simpa using h.symm⟩
      | cons d pre' =>
        apply ih
        refine ⟨pre', post, ?_⟩
        have := congrArg (fun l => List.tail l) h
        simpa using this

theorem beforeFirst_some (pat : List Char) :
    ∀ (s b : List Char), beforeFirst pat s = some b →
      ∃ post, s = b ++ pat ++ post := by
  intro s
  induction s with
  | nil =>
    intro b h
    simp only [beforeFirst] at h
    split at h
    · rename_i hp
      have hpat : pat = [] := by
        cases pat with
        | nil => rfl
        | cons a t => simp [List.isPrefixOf] at hp
      have hb : b = [] := by simpa using h.symm
      exact ⟨[], by simp [hpat, hb]⟩
    · exact absurd h (by simp)
  | cons c rest ih =>
    intro b h
    simp only [beforeFirst] at h
    split at h
    · rename_i hp
      have hpre : pat <+: c :: rest := List.isPrefixOf_iff_prefix.mp hp
      obtain ⟨post, hpost⟩ := hpre
      have hb : b = [] := by simpa using h.symm
      exact ⟨post, by simp [hb, hpost]⟩
    · rename_i hp
      cases hmap : beforeFirst pat rest with
      | none => simp [hmap] at h
      | some b' =>
        obtain ⟨post, hpost⟩ := ih b' hmap
        have hb : b = c :: b' := by
          rw [hmap] at h
          simpa using h.symm
        exact ⟨post, by simp [hb, hpost]⟩

theorem beforeFirst_isSome_of_contains (pat : List Char) :
    ∀ (s : List Char), ContainsSeq pat s → (beforeFirst pat s).isSome := by
  intro s
  induction s with
  | nil =>
    rintro ⟨pre, post, h⟩
    have hpat : pat = [] := by
      cases pre <;> cases pat <;> simp_all
    simp [beforeFirst, hpat, List.isPrefixOf]
  | cons c rest ih =>
    rintro ⟨pre, post, h⟩
    simp only [beforeFirst]
    split
    · simp
    · rename_i hp
      cases pre with
      | nil =>
        exfalso
        apply hp
        apply List.isPrefixOf_iff_prefix.mpr
        exact ⟨post, by simpa using h.symm⟩
      | cons d pre' =>
        have hrest : ContainsSeq pat rest := by
          refine ⟨pre', post, ?_⟩
          have := congrArg (fun l => List.tail l) h
          simpa using this
        have := ih hrest
        cases hb : beforeFirst pat rest with
        | none => simp [hb] at this
        | some b => simp [hb]

theorem fencedCapture_some_hasBlock (tag s b : List Char) :
    fencedCapture tag s = some b → HasFencedBlock tag s := by
  intro h
  simp only [fencedCapture] at h
  cases ha : afterFirst (openFence tag) s with
  | none => simp [ha] at h
  | some rest =>
    rw [ha] at h
    obtain ⟨pre, hpre, -⟩ := afterFirst_some (openFence tag) s rest ha
    obtain ⟨post, hpost⟩ := beforeFirst_some closeFence rest b h
    exact ⟨pre, b, post, by simp [hpre, hpost]⟩

theorem fencedCapture_isSome_of_hasBlock (tag s : List Char) :
    HasFencedBlock tag s → (fencedCapture tag s).isSome := by
  rintro ⟨pre, mid, post, hdec⟩
  have hcontains : ContainsSeq (openFence tag) s :=
    ⟨pre, mid ++ closeFence ++ post, by simp [hdec]⟩
  have hsome := afterFirst_isSome_of_contains (openFence tag) s hcontains
  cases ha : afterFirst (openFence tag) s with
  | none => simp [ha] at hsome
  | some rest =>
    obtain ⟨pre0, hpre0, hmin⟩ := afterFirst_some (openFence tag) s rest ha
    have hle : pre0.length ≤ pre.length :=
      hmin pre (mid ++ closeFence ++ post) (by simp [hdec])
    have hsuffix1 : rest <:+ s := ⟨pre0 ++ openFence tag, by simp [hpre0]⟩
    have hsuffix2 : mid ++ closeFence ++ post <:+ s :=
      ⟨pre ++ openFence tag, by simp [hdec]⟩
    have hlen : (mid ++ closeFence ++ post).length ≤ rest.length := by
      have h1 := congrArg List.length hpre0
      have h2 := congrArg List.length hdec
      simp only [List.length_append] at h1 h2 ⊢
      omega
    have hsub : mid ++ closeFence ++ post <:+ rest :=
      List.suffix_of_suffix_length_le hsuffix2 hsuffix1 hlen
    obtain ⟨r0, hr0⟩ := hsub
    have hcontains2 : ContainsSeq closeFence rest :=
      ⟨r0 ++ mid, post, by simp [← hr0]⟩
    have hbsome := beforeFirst_isSome_of_contains closeFence rest hcontains2
    simp only [fencedCapture, ha]
    exact hbsome

theorem fencedCapture_eq_none_iff (tag s : List Char) :
    fencedCapture tag s = none ↔ ¬ HasFencedBlock tag s := by
  constructor
  · intro h hblock
    have := fencedCapture_isSome_of_hasBlock tag s hblock
    simp [h] at this
  · intro h
    cases hc : fencedCapture tag s with
    | none => rfl
    | some b => exact absurd (fencedCapture_some_hasBlock tag s b hc) h

/-! ## JSON values and `JSON.parse`

The source calls the JavaScript built-in `JSON.parse` on model responses.
The parser below embeds the JSON grammar accepted by `JSON.parse`
(RFC 8259: any value at top level, `\t`/`\n`/`\r`/space as insignificant
whitespace, string escapes, and the standard number grammar).  Number
lexemes are kept verbatim: no claim depends on numeric decoding. -/

/-- JSON values as produced by `JSON.parse`. -/
inductive JsonVal where
  | null
  | boolVal (b : Bool)
  | numVal (lexeme : List Char)
  | strVal (s : List Char)
  | arrVal (elems : List JsonVal)
  | objVal (fields : List (List Char × JsonVal))

/-- Left brace character, written by code point to keep it out of literals. -/
def lbraceChar : Char := Char.ofNat 123

/-- Right brace character, written by code point. -/
def rbraceChar : Char := Char.ofNat 125

/-- Insignificant whitespace of the JSON grammar. -/
def jsonWsChar (c : Char) : Bool :=
  c = ' ' || c = '\t' || c = '\n' || c = '\r'

/-- Skip insignificant JSON whitespace. -/
def skipWs (s : List Char) : List Char := s.dropWhile jsonWsChar

/-- Value of a hexadecimal digit, `none` for other characters. -/
def hexDigitVal (c : Char) : Option Nat :=
  if c.isDigit then some (c.toNat - '0'.toNat)
  else if 'a' ≤ c ∧ c ≤ 'f' then some (c.toNat - 'a'.toNat + 10)
  else if 'A' ≤ c ∧ c ≤ 'F' then some (c.toNat - 'A'.toNat + 10)
  else none

/-- Body of a JSON string after the opening quote: returns the decoded
characters and the input remaining after the closing quote. -/
def parseStringBody : Nat → List Char → Option (List Char × List Char)
  | 0, _ => none
  | _ + 1, [] => none
  | fuel + 1, c :: rest =>
    if c = '"' then some ([], rest)
    else if c = '\\' then
      match rest with
      | [] => none
      | e :: rest2 =>
        if e = '"' then (parseStringBody fuel rest2).map (fun p => ('"' :: p.1, p.2))
        else if e = '\\' then (parseStringBody fuel rest2).map (fun p => ('\\' :: p.1, p.2))
        else if e = '/' then (parseStringBody fuel rest2).map (fun p => ('/' :: p.1, p.2))
        else if e = 'b' then (parseStringBody fuel rest2).map (fun p => ('\x08' :: p.1, p.2))
        else if e = 'f' then (parseStringBody fuel rest2).map (fun p => ('\x0C' :: p.1, p.2))
        else if e = 'n' then (parseStringBody fuel rest2).map (fun p => ('\n' :: p.1, p.2))
        else if e = 'r' then (parseStringBody fuel rest2).map (fun p => ('\r' :: p.1, p.2))
        else if e = 't' then (parseStringBody fuel rest2).map (fun p => ('\t' :: p.1, p.2))
        else if e = 'u' then
          match rest2 with
          | h1 :: h2 :: h3 :: h4 :: rest3 =>
            match hexDigitVal h1, hexDigitVal h2, hexDigitVal h3, hexDigitVal h4 with
            | some a, some b, some c2, some d =>
              (parseStringBody fuel rest3).map
                (fun p => (Char.ofNat (((a * 16 + b) * 16 + c2) * 16 + d) :: p.1, p.2))
            | _, _, _, _ => none
          | _ => none
        else none
    else if c.toNat < 32 then none
    else (parseStringBody fuel rest).map (fun p => (c :: p.1, p.2))

/-- Optional fraction part `.[0-9]+` of a JSON number. -/
def parseFracPart (s : List Char) : Option (List Char × List Char) :=
  match s with
  | '.' :: r =>
    let ds := r.takeWhile Char.isDigit
    if ds = [] then none else some ('.' :: ds, r.dropWhile Char.isDigit)
  | _ => some ([], s)

/-- Optional exponent part `[eE][+-]?[0-9]+` of a JSON number. -/
def parseExpPart (s : List Char) : Option (List Char × List Char) :=
  match s with
  | [] => some ([], [])
  | e :: r =>
    if e = 'e' ∨ e = 'E' then
      let (sg, r2) :=
        match r with
        | '+' :: rr => (['+'], rr)
        | '-' :: rr => (['-'], rr)
        | _ => (([] : List Char), r)
      let ds := r2.takeWhile Char.isDigit
      if ds = [] then none else some (e :: (sg ++ ds), r2.dropWhile Char.isDigit)
    else some ([], s)

/-- Continue a JSON number after its integer part. -/
def continueFracExp (intPart : List Char) (s : List Char) :
    Option (List Char × List Char) :=
  match parseFracPart s with
  | none => none
  | some (fp, s2) =>
    match parseExpPart s2 with
    | none => none
    | some (ep, s3) => some (intPart ++ fp ++ ep, s3)

/-- Lexeme of a JSON number: `-?(0|[1-9][0-9]*)(\.[0-9]+)?([eE][+-]?[0-9]+)?`. -/
def parseNumberLex (s : List Char) : Option (List Char × List Char) :=
  let (sign, s1) :=
    match s with
    | '-' :: r => (['-'], r)
    | _ => (([] : List Char), s)
  match s1 with
  | [] => none
  | c :: r =>
    if c = '0' then continueFracExp (sign ++ ['0']) r
    else if c.isDigit then
      continueFracExp (sign ++ c :: r.takeWhile Char.isDigit) (r.dropWhile Char.isDigit)
    else none

mutual

/-- One JSON value, skipping leading whitespace; returns the rest of the
input. -/
def parseValue : Nat → List Char → Option (JsonVal × List Char)
  | 0, _ => none
  | fuel + 1, s =>
    let s1 := skipWs s
    match s1 with
    | [] => none
    | c :: rest =>
      if c = '"' then
        (parseStringBody (rest.length + 1) rest).map (fun p => (JsonVal.strVal p.1, p.2))
      else if c = '[' then parseElems fuel rest
      else if c = lbraceChar then parseFields fuel rest
      else if "true".toList.isPrefixOf s1 then some (JsonVal.boolVal true, s1.drop 4)
      else if "false".toList.isPrefixOf s1 then some (JsonVal.boolVal false, s1.drop 5)
      else if "null".toList.isPrefixOf s1 then some (JsonVal.null, s1.drop 4)
      else (parseNumberLex s1).map (fun p => (JsonVal.numVal p.1, p.2))

/-- Elements of a JSON array, after the opening bracket. -/
def parseElems : Nat → List Char → Option (JsonVal × List Char)
  | 0, _ => none
  | fuel + 1, s =>
    let s1 := skipWs s
    match s1 with
    | ']' :: rest => some (JsonVal.arrVal [], rest)
    | _ =>
      match parseValue fuel s1 with
      | none => none
      | some (v, r) => parseElemsRest fuel [v] r

/-- Remaining elements of a JSON array, after at least one element. -/
def parseElemsRest : Nat → List JsonVal → List Char → Option (JsonVal × List Char)
  | 0, _, _ => none
  | fuel + 1, acc, s =>
    let s1 := skipWs s
    match s1 with
    | ']' :: rest => some (JsonVal.arrVal acc.reverse, rest)
    | ',' :: rest =>
      match parseValue fuel rest with
      | none => none
      | some (v, r) => parseElemsRest fuel (v :: acc) r
    | _ => none

/-- One `"key": value` member of a JSON object. -/
def parseField : Nat → List Char → Option ((List Char × JsonVal) × List Char)
  | 0, _ => none
  | fuel + 1, s =>
    let s1 := skipWs s
    match s1 with
    | '"' :: rest =>
      match parseStringBody (rest.length + 1) rest with
      | none => none
      | some (key, r) =>
        match skipWs r with
        | ':' :: r2 =>
          match parseValue fuel r2 with
          | none => none
          | some (v, r3) => some ((key, v), r3)
        | _ => none
    | _ => none

/-- Members of a JSON object, after the opening brace. -/
def parseFields : Nat → List Char → Option (JsonVal × List Char)
  | 0, _ => none
  | fuel + 1, s =>
    let s1 := skipWs s
    match s1 with
    | [] => none
    | c :: rest =>
      if c = rbraceChar then some (JsonVal.objVal [], rest)
      else
        match parseField fuel s1 with
        | none => none
        | some (kv, r) => parseFieldsRest fuel [kv] r

/-- Remaining members of a JSON object, after at least one member. -/
def parseFieldsRest : Nat → List (List Char × JsonVal) → List Char →
    Option (JsonVal × List Char)
  | 0, _, _ => none
  | fuel + 1, acc, s =>
    let s1 := skipWs s
    match s1 with
    | [] => none
    | c :: rest =>
      if c = rbraceChar then some (JsonVal.objVal acc.reverse, rest)
      else if c = ',' then
        match parseField fuel rest with
        | none => none
        | some (kv, r) => parseFieldsRest fuel (kv :: acc) r
      else none

end

/-- JavaScript `JSON.parse` as a total function: `some` on texts the JSON
grammar accepts (a value surrounded only by insignificant whitespace),
`none` on texts where `JSON.parse` throws.  The fuel bounds the nesting
depth; each recursion step consumes at least one input character, so
`length + 2` can never be exhausted on accepted input. -/
def jsonParse (s : List Char) : Option JsonVal :=
  match parseValue (s.length + 2) s with
  | none => none
  | some (v, rest) => if skipWs rest = [] then some v else none

/-! ## CodeGenerator skill
(`packages/vscode-extension/src/chat/officeCommon/skills/codeGenerator.ts`) -/

/-- Result values returned by `CodeGenerator.invoke`
(`executionResultEnum.ts`; the three constructors used by the source). -/
inductive ExecutionResultEnum where
  | Success
  | Failure
  | Rejected
deriving DecidableEq

/-- Shape of a successful `userInputBreakdownTaskAsync` result. -/
structure BreakdownResult where
  host : String
  shouldContinue : Bool
  customFunctions : Bool
  data : List String
  complexity : Int

/-- Telemetry carried on `spec.appendix.telemetryData`: `measurements` maps
measurement names to numbers, `properties` maps property names to strings;
`none` models an absent (JavaScript `undefined`) entry.  The
floating-point execution-time measurement updated by `invoke` is omitted:
it records wall-clock durations, which have no shallow embedding. -/
structure TelemetryData where
  measurements : String → Option Int
  properties : String → Option String

/-- The `appendix` of the request-scoped `Spec` object, with the fields
`CodeGenerator` reads and writes. -/
structure Appendix where
  host : String
  codeTaskBreakdown : List String
  isCustomFunction : Bool
  complexity : Int
  codeSnippet : String
  telemetryData : TelemetryData

/-- The request-scoped `Spec` object (`spec.ts`; fields as used by
`codeGenerator.ts`). -/
structure Spec where
  sections : List String
  appendix : Appendix

/-- Telemetry key (identifier from `telemetryConsts.ts`). -/
def MeasurementSystemCodegenTaskBreakdownAttemptFailedCount : String :=
  "MeasurementSystemCodegenTaskBreakdownAttemptFailedCount"

/-- Telemetry key (identifier from `telemetryConsts.ts`). -/
def MeasurementCodeGenAttemptCount : String :=
  "MeasurementCodeGenAttemptCount"

/-- Telemetry key (identifier from `telemetryConsts.ts`). -/
def MeasurementScenarioBasedSampleMatchedCount : String :=
  "MeasurementScenarioBasedSampleMatchedCount"

/-- Telemetry key (identifier from `telemetryConsts.ts`). -/
def PropertySystemCodeGenResult : String :=
  "PropertySystemCodeGenResult"

/-- Parse portion of `userInputBreakdownTaskAsync` (codeGenerator.ts
lines 290–295): the response is first matched against
`` /```json([\s\S]*?)```/ ``; when no fenced block is found the whole
trimmed response is passed to `JSON.parse`, otherwise the trimmed capture
of the fenced block is passed to `JSON.parse`. -/
def breakdownParseCode (resp : List Char) : Option JsonVal :=
  match fencedCapture jsonTag resp with
  | none => jsonParse (jsTrim resp)
  | some block => jsonParse (jsTrim block)

/-- Tail of the `try` block of `userInputBreakdownTaskAsync`: after a
successful parse the source evaluates `copilotRet.complexity` inside a
template literal (line 297); when `JSON.parse` returned JavaScript `null`
that property access throws a `TypeError`, which the surrounding `catch`
turns into a `null` return. -/
def jsonNullFilter : Option JsonVal → Option JsonVal
  | none => none
  | some JsonVal.null => none
  | some v => some v

/-- Return value of `userInputBreakdownTaskAsync` as a function of the model
response text: `some` of the parsed JSON value, or `none` when the `catch`
branch returns `null`. -/
def userInputBreakdownTask (resp : List Char) : Option JsonVal :=
  jsonNullFilter (breakdownParseCode resp)

/-- Parse order as the specification words it: first a direct `JSON.parse`
of the whole trimmed response, and only when that direct parse fails a
fallback to extracting a fenced `json` block and parsing it. -/
def breakdownParseClaimed (resp : List Char) : Option JsonVal :=
  match jsonParse (jsTrim resp) with
  | some v => some v
  | none =>
    match fencedCapture jsonTag resp with
    | none => none
    | some block => jsonParse (jsTrim block)

/-- Breakdown return value under the specification's claimed parse order,
with the same null filtering as the source. -/
def userInputBreakdownTaskClaimed (resp : List Char) : Option JsonVal :=
  jsonNullFilter (breakdownParseClaimed resp)

/-- Model selection in `generateCode` (codeGenerator.ts line 398):
`spec.appendix.complexity >= 50 ? "copilot-gpt-4" : "copilot-gpt-3.5-turbo"`. -/
def selectCodeGenModel (complexity : Int) : String :=
  if 50 ≤ complexity then "copilot-gpt-4" else "copilot-gpt-3.5-turbo"

/-- Code extraction at the end of `generateCode` (lines 404–415): match the
response against `` /```typescript([\s\S]*?)```/ ``; on no match return
`null`, otherwise return `correctPropertyLoadSpelling` applied to the
trimmed capture.  `correctPropertyLoadSpelling` lives in `../Utils`,
outside the embedded sources, so it is a parameter here. -/
def generateCodeExtract (correct : List Char → List Char) (resp : List Char) :
    Option (List Char) :=
  match fencedCapture typescriptTag resp with
  | none => none
  | some block => some (correct (jsTrim block))

/-- A static reference sample held by the sample provider. -/
structure SampleData where
  description : List Char
  codeSample : List Char

/-- Modelled from the spec: `SampleProvider.getTopKMostRelevantScenarioSampleCodes`
(`samples/sampleProvider.ts`, not included under src/) is a "static lookup
of reference code snippets keyed by relevance" that "fetches up to two most
relevant static samples"; it is modelled as returning the first `k` entries
of the provider's internally ranked static sample list. -/
def getTopKMostRelevantScenarioSampleCodes (k : Nat) (ranked : List SampleData) :
    List SampleData :=
  ranked.take k

/-- Markdown snippet `generateCode` builds for one returned sample
(lines 375–378). -/
def renderSampleSnippet (s : SampleData) : List Char :=
  "- ".toList ++ s.description ++ ":\n".toList ++ closeFence ++ typescriptTag ++
    "\n".toList ++ s.codeSample ++ "\n".toList ++ closeFence ++ "\n".toList

/-- Reference-sample snippets `generateCode` appends to its system prompt:
the provider is asked with the top-k parameter fixed at `2` (line 370), and
one snippet is pushed per returned sample (lines 372–384). -/
def generateCodeSampleSnippets (ranked : List SampleData) : List (List Char) :=
  (getTopKMostRelevantScenarioSampleCodes 2 ranked).map renderSampleSnippet

/-- Base value of a telemetry counter before the increment: the source
resets the entry to `0` when it is absent or falsy
(`if (!m[k]) { m[k] = 0; }`). -/
def counterBase : Option Int → Int
  | none => 0
  | some v => if v = 0 then 0 else v

/-- The two-step counter update `if (!m[k]) { m[k] = 0; }; m[k] += 1;`. -/
def incCounter (m : String → Option Int) (k : String) : String → Option Int :=
  fun k2 => if k2 = k then some (counterBase (m k) + 1) else m k2

/-- Property assignment `p[k] = v`. -/
def setProperty (p : String → Option String) (k v : String) :
    String → Option String :=
  fun k2 => if k2 = k then some v else p k2

/-- Guard of the breakdown stage in `invoke` (lines 137–141):
`!!spec.appendix.host || !!spec.appendix.codeTaskBreakdown ||
(spec.appendix.codeTaskBreakdown as string[]).length == 0`.
`codeTaskBreakdown` holds a string array, and in JavaScript every array
object — the empty array included — is truthy. -/
def invokeRunsBreakdown (a : Appendix) : Bool :=
  jsTruthyString a.host || jsTruthyArray a.codeTaskBreakdown ||
    (a.codeTaskBreakdown.length == 0)

/-- Outcome of one `invoke` call: the returned result and spec, plus how
many times each remote stage was invoked during the call. -/
structure InvokeOutcome where
  result : ExecutionResultEnum
  spec : Spec
  breakdownCalls : Nat
  codegenCalls : Nat

/-- Code-generation phase of `invoke` (lines 172–211): bump the attempt
counter, call `generateCode` once (the oracle `gen` stands for that awaited
remote call: it yields the returned snippet — `none` for `null` — and the
spec as mutated by `generateCode`), then branch on the JavaScript
truthiness of the snippet (`null` and `""` are both falsy). -/
def codegenPhase (gen : Spec → Option String × Spec) (spec0 : Spec) :
    ExecutionResultEnum × Spec × Nat :=
  let specA :=
    { spec0 with
      appendix.telemetryData.measurements :=
        incCounter spec0.appendix.telemetryData.measurements
          MeasurementCodeGenAttemptCount }
  match gen specA with
  | (none, specB) =>
    (ExecutionResultEnum.Failure,
      { specB with
        appendix.telemetryData.properties :=
          setProperty specB.appendix.telemetryData.properties
            PropertySystemCodeGenResult "false" }, 1)
  | (some code, specB) =>
    if code = "" then
      (ExecutionResultEnum.Failure,
        { specB with
          appendix.telemetryData.properties :=
            setProperty specB.appendix.telemetryData.properties
              PropertySystemCodeGenResult "false" }, 1)
    else
      (ExecutionResultEnum.Success,
        { specB with
          appendix.telemetryData.properties :=
            setProperty specB.appendix.telemetryData.properties
              PropertySystemCodeGenResult "true",
          appendix.codeSnippet := code }, 1)

/-- `CodeGenerator.invoke` (lines 129–212).  `breakdownOutcome` stands for
the awaited result of the single `userInputBreakdownTaskAsync` call made
when the guard holds (`none` for a `null` return); `gen` stands for the
`generateCode` call.  Progress reporting and wall-clock telemetry are device
interaction and are omitted. -/
def invoke (breakdownOutcome : Option BreakdownResult)
    (gen : Spec → Option String × Spec) (spec0 : Spec) : InvokeOutcome :=
  if invokeRunsBreakdown spec0.appendix then
    match breakdownOutcome with
    | none =>
      let spec1 :=
        { spec0 with
          appendix.telemetryData.measurements :=
            incCounter spec0.appendix.telemetryData.measurements
              MeasurementSystemCodegenTaskBreakdownAttemptFailedCount }
      ⟨ExecutionResultEnum.Failure, spec1, 1, 0⟩
    | some br =>
      if br.shouldContinue = false then
        ⟨ExecutionResultEnum.Rejected, { spec0 with sections := br.data }, 1, 0⟩
      else
        let spec1 :=
          { spec0 with
            appendix.host := br.host,
            appendix.codeTaskBreakdown := br.data,
            appendix.isCustomFunction := br.customFunctions,
            appendix.complexity := br.complexity }
        let (r, s, cg) := codegenPhase gen spec1
        ⟨r, s, 1, cg⟩
  else
    let (r, s, cg) := codegenPhase gen spec0
    ⟨r, s, 0, cg⟩

/-! ## Azure Function deploy action
(`packages/fx-core/src/component/resource/azureFunction.ts`) -/

/-- Truthiness of a JavaScript string modelled as a character list:
only the empty string is falsy. -/
def jsTruthyText (s : List Char) : Bool :=
  if s = [] then false else true

/-- Split a character list on a separator character (analogue of
JavaScript `String.prototype.split` with a one-character separator). -/
def splitOnChar (sep : Char) : List Char → List (List Char)
  | [] => [[]]
  | c :: rest =>
    if c = sep then [] :: splitOnChar sep rest
    else
      match splitOnChar sep rest with
      | [] => [[c]]
      | g :: gs => (c :: g) :: gs

/-- Join character lists with `/` between them. -/
def intercalateSlash : List (List Char) → List Char
  | [] => []
  | [g] => g
  | g :: gs => g ++ '/' :: intercalateSlash gs

/-- Whether the path ends with a `/`. -/
def isTrailingSlash (p : List Char) : Bool :=
  match p.getLast? with
  | some c => c = '/'
  | none => false

/-- Segment resolution of Node's `path.posix.normalize`: empty and `"."`
segments are dropped; `".."` pops the previous segment, or is kept when
nothing can be popped and the path is relative (`allowAboveRoot`). -/
def resolveSegs (allowAboveRoot : Bool) :
    List (List Char) → List (List Char) → List (List Char)
  | acc, [] => acc.reverse
  | acc, seg :: rest =>
    if seg = [] || seg = ['.'] then resolveSegs allowAboveRoot acc rest
    else if seg = ['.', '.'] then
      (match acc with
       | [] =>
         if allowAboveRoot then resolveSegs allowAboveRoot [['.', '.']] rest
         else resolveSegs allowAboveRoot [] rest
       | top :: tl =>
         if top = ['.', '.'] then resolveSegs allowAboveRoot (seg :: top :: tl) rest
         else resolveSegs allowAboveRoot tl rest)
    else resolveSegs allowAboveRoot (seg :: acc) rest

/-- Whether the path starts with a `/`. -/
def isAbsolutePath (p : List Char) : Bool :=
  match p with
  | '/' :: _ => true
  | _ => false

/-- Reassembly step of `path.posix.normalize`: re-attach the leading and
trailing separators to the resolved body, falling back to `"/"`, `"./"` or
`"."` when the body is empty. -/
def assemblePath (isAbs trailingSep : Bool) (body : List Char) : List Char :=
  if body = [] then
    if isAbs then ['/'] else if trailingSep then ['.', '/'] else ['.']
  else
    if isAbs then '/' :: (if trailingSep then body ++ ['/'] else body)
    else if trailingSep then body ++ ['/'] else body

/-- Node's `path.posix.normalize`: resolve `"."`/`".."` segments, preserve
a leading `/` and a trailing `/`, and return `"."` (or `"/"`, `"./"`) when
everything cancels — never the empty string. -/
def posixNormalize (p : List Char) : List Char :=
  if p = [] then ['.']
  else
    assemblePath (isAbsolutePath p) (isTrailingSlash p)
      (intercalateSlash (resolveSegs (!isAbsolutePath p) [] (splitOnChar '/' p)))

/-- Node's `path.posix.join` on two arguments, as called at line 97:
non-empty arguments are joined with `/` and the result normalized;
with no non-empty argument the result is `"."`. -/
def pathJoin (a b : List Char) : List Char :=
  match [a, b].filter (fun x => !x.isEmpty) with
  | [] => ['.']
  | parts => posixNormalize (intercalateSlash parts)

/-- Errors thrown by the `execute` callback of the deploy action.
`PreconditionError` and `PackDirectoryExistenceError` are the error classes
imported from `plugins/resource/bot/v3/error`; `somethingMissing` carries
the key named by `CheckThrowSomethingMissing`. -/
inductive DeployErr where
  | preconditionWorkingDirMissing
  | packDirectoryExistence
  | somethingMissing (key : List Char)
deriving DecidableEq

/-- Opaque result of `utils.zipFolderAsync`. -/
structure ZipBuffer where
  dir : List Char
deriving DecidableEq

/-- Side effects the `execute` callback can perform, in order. -/
inductive SideEffect where
  | zipFolder (dir : List Char)
  | azureDeploy (resourceId : List Char) (zip : ZipBuffer)
deriving DecidableEq

/-- Sequential effectful computation: threads the list of side effects
performed so far and aborts on a thrown error. -/
def EffM (α : Type) : Type :=
  List SideEffect → List SideEffect × Except DeployErr α

/-- Return without effects. -/
def effPure {α : Type} (a : α) : EffM α := fun tr => (tr, Except.ok a)

/-- Throw an error, keeping the effects performed so far. -/
def effThrow {α : Type} (e : DeployErr) : EffM α := fun tr => (tr, Except.error e)

/-- Sequencing: run `m`; on success feed its value to `f`, on a thrown
error propagate it. -/
def effBind {α β : Type} (m : EffM α) (f : α → EffM β) : EffM β := fun tr =>
  match m tr with
  | (tr2, Except.ok a) => f a tr2
  | (tr2, Except.error e) => (tr2, Except.error e)

/-- `utils.zipFolderAsync(workingDir, "")`: zips the directory (recorded as
a side effect) and yields the zip buffer. -/
def zipFolderAsync (dir : List Char) : EffM ZipBuffer :=
  fun tr => (tr ++ [SideEffect.zipFolder dir], Except.ok ⟨dir⟩)

/-- `azureWebSiteDeploy(resourceId, ctx.tokenProvider, zipBuffer)`: invokes
the deployment API (recorded as a side effect). -/
def azureWebSiteDeploy (resourceId : List Char) (zip : ZipBuffer) : EffM Unit :=
  fun tr => (tr ++ [SideEffect.azureDeploy resourceId zip], Except.ok ())

/-- Modelled from the spec: `CheckThrowSomethingMissing`
(`plugins/resource/bot/v3/error.ts`, not included under src/) "raises typed
errors when required state (endpoint, resource id) is absent from prior
provisioning output" — it throws a typed error naming the key when the
checked value is absent and otherwise lets execution continue. -/
def CheckThrowSomethingMissing (key : List Char) (value : Option (List Char)) :
    EffM (List Char) :=
  match value with
  | none => effThrow (DeployErr.somethingMissing key)
  | some v => effPure v

/-- Key of the endpoint output (`this.outputs.endpoint.key`). -/
def endpointKey : List Char := "endpoint".toList

/-- Key of the resource-id output (`this.outputs.resourceId.key`). -/
def resourceIdKey : List Char := "resourceId".toList

/-- The `execute` callback of `AzureFunctionResource.deploy`
(azureFunction.ts lines 93–124).  `fsPathExists` is the `fs.pathExists`
oracle; `state` is key lookup in `ctx.envInfo.state["azure-function"]`
(`none` for an absent key).  The returned string is the success remark. -/
def deployExecute (projectPath folder : List Char)
    (fsPathExists : List Char → Bool)
    (state : List Char → Option (List Char)) : EffM (List Char) :=
  let workingDir := pathJoin projectPath folder
  if jsTruthyText workingDir = false then
    effThrow DeployErr.preconditionWorkingDirMissing
  else if fsPathExists workingDir = false then
    effThrow DeployErr.packDirectoryExistence
  else
    effBind (CheckThrowSomethingMissing endpointKey (state endpointKey)) (fun _ =>
      effBind (CheckThrowSomethingMissing resourceIdKey (state resourceIdKey)) (fun _ =>
        let resourceId := (state resourceIdKey).getD []
        effBind (zipFolderAsync workingDir) (fun zipBuffer =>
          effBind (azureWebSiteDeploy resourceId zipBuffer) (fun _ =>
            effPure ("deploy azure function in folder: ".toList ++ workingDir)))))

/-! ## Helper lemmas -/

theorem assemblePath_ne_nil (isAbs trailingSep : Bool) (body : List Char) :
    assemblePath isAbs trailingSep body ≠ [] := by
  unfold assemblePath
  split_ifs <;> simp_all

theorem posixNormalize_ne_nil (p : List Char) : posixNormalize p ≠ [] := by
  unfold posixNormalize
  split_ifs <;> simp [assemblePath_ne_nil]

theorem pathJoin_ne_nil (a b : List Char) : pathJoin a b ≠ [] := by
  unfold pathJoin
  split
  · simp
  · exact posixNormalize_ne_nil _

theorem jsTruthyText_pathJoin (a b : List Char) :
    jsTruthyText (pathJoin a b) = true := by
  unfold jsTruthyText
  simp [pathJoin_ne_nil a b]

/-! ## Claim theorems -/

/-- Claim C6: in the deploy action's execute callback, when the working
directory (projectPath joined with folder) does not exist on disk, a
`PackDirectoryExistenceError` is thrown before any side effect: the
directory is not zipped and the deployment API is not invoked. -/
theorem deploy_missing_dir_fails_fast
    (projectPath folder : List Char) (fsPathExists : List Char → Bool)
    (state : List Char → Option (List Char))
    (h : fsPathExists (pathJoin projectPath folder) = false) :
    deployExecute projectPath folder fsPathExists state []
      = ([], Except.error DeployErr.packDirectoryExistence) := by
  unfold deployExecute
  rw [jsTruthyText_pathJoin]
  simp [h, effThrow]

theorem deploy_missing_dir_fails_fast_witness :
    deployExecute "proj".toList "api".toList (fun _ => false) (fun _ => none) []
      = ([], Except.error DeployErr.packDirectoryExistence) :=
  deploy_missing_dir_fails_fast "proj".toList "api".toList
    (fun _ => false) (fun _ => none) rfl

/-- Claim C7: in the deploy action's execute callback, when either the
endpoint or the resourceId key is absent from the prior provisioning output
state, a typed error naming the key is thrown by `CheckThrowSomethingMissing`
before the directory is zipped and before the deployment API is invoked
(stated for runs that reach the state checks, i.e. the pack directory
exists). -/
theorem deploy_missing_state_fails_fast
    (projectPath folder : List Char) (fsPathExists : List Char → Bool)
    (state : List Char → Option (List Char))
    (hdir : fsPathExists (pathJoin projectPath folder) = true)
    (h : state endpointKey = none ∨ state resourceIdKey = none) :
    ∃ k, deployExecute projectPath folder fsPathExists state []
      = ([], Except.error (DeployErr.somethingMissing k)) := by
  unfold deployExecute
  rw [jsTruthyText_pathJoin]
  cases hend : state endpointKey with
  | none =>
    exact ⟨endpointKey, by simp [hdir, hend, CheckThrowSomethingMissing,
      effBind, effThrow]⟩
  | some v =>
    cases hres : state resourceIdKey with
    | none =>
      exact ⟨resourceIdKey, by simp [hdir, hend, hres,
        CheckThrowSomethingMissing, effBind, effThrow, effPure]⟩
    | some w =>
      rcases h with h1 | h1
      · exact absurd hend (by simp [h1])
      · exact absurd hres (by simp [h1])

theorem deploy_missing_state_fails_fast_witness :
    ∃ k, deployExecute "proj".toList "api".toList (fun _ => true) (fun _ => none) []
      = ([], Except.error (DeployErr.somethingMissing k)) :=
  deploy_missing_state_fails_fast "proj".toList "api".toList
    (fun _ => true) (fun _ => none) rfl (Or.inl rfl)

/-- Claim C10: the branch throwing `PreconditionError` for a missing working
directory is unreachable: for all inputs, `path.join(projectPath, folder)`
returns a non-empty string, so the `!workingDir` test is always false and
that `PreconditionError` is never thrown. -/
theorem deploy_workingDir_precondition_unreachable
    (projectPath folder : List Char) (fsPathExists : List Char → Bool)
    (state : List Char → Option (List Char)) (tr : List SideEffect) :
    pathJoin projectPath folder ≠ [] ∧
    jsTruthyText (pathJoin projectPath folder) = true ∧
    (deployExecute projectPath folder fsPathExists state tr).2
      ≠ Except.error DeployErr.preconditionWorkingDirMissing := by
  refine ⟨pathJoin_ne_nil projectPath folder, jsTruthyText_pathJoin projectPath folder, ?_⟩
  unfold deployExecute
  rw [jsTruthyText_pathJoin]
  cases hfs : fsPathExists (pathJoin projectPath folder) with
  | false => simp [effThrow]
  | true =>
    cases hend : state endpointKey with
    | none => simp [hend, CheckThrowSomethingMissing, effBind, effThrow]
    | some v =>
      cases hres : state resourceIdKey with
      | none => simp [hend, hres, CheckThrowSomethingMissing, effBind,
          effThrow, effPure]
      | some w => simp [hend, hres, CheckThrowSomethingMissing, effBind,
          effThrow, effPure, zipFolderAsync, azureWebSiteDeploy]

/-- Counterexample to claim C1: at a complexity score of exactly 50 the
stronger model variant is selected although 50 does not exceed 50. -/
theorem model_selection_at_50_counterexample :
    selectCodeGenModel 50 = "copilot-gpt-4" ∧ ¬ ((50 : Int) > 50) :=
  ⟨rfl, by decide⟩

/-- Claim C1 (amended): in `generateCode`, the stronger model variant
`"copilot-gpt-4"` is selected if and only if the previously computed
complexity score is at least 50; for every complexity score strictly below
50 the weaker variant `"copilot-gpt-3.5-turbo"` is used. -/
theorem model_selection_threshold (complexity : Int) :
    (selectCodeGenModel complexity = "copilot-gpt-4" ↔ 50 ≤ complexity) ∧
    (selectCodeGenModel complexity = "copilot-gpt-3.5-turbo" ↔ complexity < 50) := by
  unfold selectCodeGenModel
  split_ifs with h
  · constructor
    · simp [h]
    · constructor
      · intro heq
        exact absurd heq (by decide)
      · intro hlt
        omega
  · constructor
    · constructor
      · intro heq
        exact absurd heq (by decide)
      · intro hle
        exact absurd hle h
    · simp
      omega

/-- Claim C4: for every model response, `generateCode` returns null if and
only if the response contains no fenced `typescript` code block; when such
a block is present, it returns the contents of the first such block,
trimmed and passed through the property-load spelling correction. -/
theorem generateCode_extraction (correct : List Char → List Char)
    (resp : List Char) :
    (generateCodeExtract correct resp = none ↔
       ¬ HasFencedBlock typescriptTag resp) ∧
    (∀ block, fencedCapture typescriptTag resp = some block →
       generateCodeExtract correct resp = some (correct (jsTrim block))) := by
  unfold generateCodeExtract
  cases hc : fencedCapture typescriptTag resp with
  | none =>
    refine ⟨?_, ?_⟩
    · simp [(fencedCapture_eq_none_iff typescriptTag resp).mp hc]
    · intro block hblock
      simp [hc] at hblock
  | some b =>
    refine ⟨?_, ?_⟩
    · simp
      exact fencedCapture_some_hasBlock typescriptTag resp b hc
    · intro block hblock
      simp at hblock
      simp [hblock]

theorem generateCode_extraction_witness :
    generateCodeExtract (fun s => s) "```typescript let x = 1;```".toList
      = some "let x = 1;".toList :=
  (generateCode_extraction (fun s => s) "```typescript let x = 1;```".toList).2
    " let x = 1;".toList rfl

/-- Claim C8: `generateCode` asks the sample provider for at most two most
relevant static samples (the top-k parameter is fixed at 2), so the number
of reference snippets appended to the system prompt never exceeds two. -/
theorem generateCode_at_most_two_samples (ranked : List SampleData) :
    (getTopKMostRelevantScenarioSampleCodes 2 ranked).length ≤ 2 ∧
    (generateCodeSampleSnippets ranked).length ≤ 2 := by
  constructor
  · simp [getTopKMostRelevantScenarioSampleCodes]
  · simp [generateCodeSampleSnippets, getTopKMostRelevantScenarioSampleCodes]

/-- Claim C9: for every call to `invoke` in which
`spec.appendix.codeTaskBreakdown` is a string array (empty or non-empty),
the guard controlling the breakdown stage evaluates to true — an array
value is always truthy in JavaScript — so the task-breakdown stage is
executed exactly once on every call; previously stored breakdown results
never cause the stage to be skipped. -/
theorem invoke_always_runs_breakdown (a : Appendix)
    (breakdownOutcome : Option BreakdownResult)
    (gen : Spec → Option String × Spec) (spec0 : Spec) :
    invokeRunsBreakdown a = true ∧
    (invoke breakdownOutcome gen spec0).breakdownCalls = 1 := by
  constructor
  · simp [invokeRunsBreakdown, jsTruthyArray]
  · unfold invoke
    rw [if_pos (by simp [invokeRunsBreakdown, jsTruthyArray])]
    cases breakdownOutcome with
    | none => rfl
    | some br =>
      by_cases hsc : br.shouldContinue = false
      · simp [hsc]
      · simp [hsc]

/-- Claim C5: whenever the breakdown stage runs and its result has
`shouldContinue` false, `invoke` returns Rejected, stores the breakdown's
data (the rejection reasons) into `spec.sections`, and the code-generation
stage is not executed in that call; conversely, the code-generation stage
runs only after a breakdown whose `shouldContinue` is true (or when the
breakdown stage was skipped, which the always-true guard never lets
happen). -/
theorem invoke_reject_stops_codegen (breakdownOutcome : Option BreakdownResult)
    (gen : Spec → Option String × Spec) (spec0 : Spec) :
    (∀ br, breakdownOutcome = some br → br.shouldContinue = false →
       ((invoke breakdownOutcome gen spec0).result = ExecutionResultEnum.Rejected ∧
        (invoke breakdownOutcome gen spec0).spec.sections = br.data ∧
        (invoke breakdownOutcome gen spec0).codegenCalls = 0)) ∧
    ((invoke breakdownOutcome gen spec0).codegenCalls ≠ 0 →
       ∃ br, breakdownOutcome = some br ∧ br.shouldContinue = true) := by
  unfold invoke
  rw [if_pos (by simp [invokeRunsBreakdown, jsTruthyArray])]
  cases breakdownOutcome with
  | none =>
    refine ⟨?_, ?_⟩
    · intro br hbr
      exact absurd hbr (by simp)
    · intro h
      exact absurd rfl h
  | some br =>
    by_cases hsc : br.shouldContinue = false
    · refine ⟨?_, ?_⟩
      · intro br2 hbr2 _
        have hbr : br2 = br := by simpa using hbr2.symm
        subst hbr
        simp [hsc]
      · intro h
        simp [hsc] at h
    · refine ⟨?_, ?_⟩
      · intro br2 hbr2 hsc2
        have hbr : br2 = br := by simpa using hbr2.symm
        subst hbr
        exact absurd hsc2 hsc
      · intro _
        exact ⟨br, rfl, by simpa using hsc⟩

/-- Concrete breakdown result used by the witness of
`invoke_reject_stops_codegen`. -/
def rejectedBreakdown : BreakdownResult :=
  ⟨"Excel", false, false, ["the ask is not about Office add-ins"], 10⟩

/-- Concrete code-generation oracle used by witnesses. -/
def genNone : Spec → Option String × Spec := fun s => (none, s)

/-- Concrete initial spec used by witnesses. -/
def specInit : Spec :=
  ⟨[], ⟨"", [], false, 0, "", ⟨fun _ => none, fun _ => none⟩⟩⟩

theorem invoke_reject_stops_codegen_witness :
    (invoke (some rejectedBreakdown) genNone specInit).result
        = ExecutionResultEnum.Rejected ∧
    (invoke (some rejectedBreakdown) genNone specInit).spec.sections
        = rejectedBreakdown.data ∧
    (invoke (some rejectedBreakdown) genNone specInit).codegenCalls = 0 :=
  (invoke_reject_stops_codegen (some rejectedBreakdown) genNone specInit).1
    rejectedBreakdown rfl rfl

/-- Model response refuting claim C2: the response is itself a valid JSON
string literal, but it contains a fenced `json` block whose content `x` is
not valid JSON.  The source extracts and parses the block (and fails); the
claimed direct-parse-first order would succeed on the whole response. -/
def c2CounterResponse : List Char := "\"```json x```\"".toList

/-- Counterexample to claim C2: on `c2CounterResponse` the source returns
null although the claimed order (direct parse first, fenced block only as
fallback) would return the parsed string. -/
theorem breakdown_parse_order_counterexample :
    userInputBreakdownTask c2CounterResponse = none ∧
    userInputBreakdownTaskClaimed c2CounterResponse
      = some (JsonVal.strVal "```json x```".toList) :=
  ⟨rfl, rfl⟩

/-- Claim C2 (amended): `userInputBreakdownTaskAsync` first looks for a
fenced `json` block; when one is present its trimmed content is parsed
(a direct parse of the whole response is not attempted in that case), and
only when no fenced block exists is the whole trimmed response parsed
directly. -/
theorem breakdown_parse_order (resp : List Char) :
    (¬ HasFencedBlock jsonTag resp →
       userInputBreakdownTask resp = jsonNullFilter (jsonParse (jsTrim resp))) ∧
    (∀ block, fencedCapture jsonTag resp = some block →
       userInputBreakdownTask resp = jsonNullFilter (jsonParse (jsTrim block))) := by
  unfold userInputBreakdownTask breakdownParseCode
  refine ⟨?_, ?_⟩
  · intro h
    rw [(fencedCapture_eq_none_iff jsonTag resp).mpr h]
  · intro block hblock
    rw [hblock]

theorem breakdown_parse_order_witness :
    userInputBreakdownTask "```json null```".toList
      = jsonNullFilter (jsonParse (jsTrim " null".toList)) :=
  (breakdown_parse_order "```json null```".toList).2 " null".toList rfl

/-- Model response refuting claim C3: the response `null` is valid JSON and
contains no fenced block, yet the source returns null, because after the
successful parse the property access `copilotRet.complexity` throws on the
JavaScript `null` value and the `catch` branch fires. -/
def c3CounterResponse : List Char := "null".toList

/-- Counterexample to claim C3: on `c3CounterResponse` the raw text parses
as JSON (so by the claim the result should be a non-null populated object),
yet `userInputBreakdownTaskAsync` returns null. -/
theorem breakdown_null_response_counterexample :
    jsonParse (jsTrim c3CounterResponse) = some JsonVal.null ∧
    fencedCapture jsonTag c3CounterResponse = none ∧
    userInputBreakdownTask c3CounterResponse = none :=
  ⟨rfl, rfl, rfl⟩

/-- Claim C3 (amended): `userInputBreakdownTaskAsync` returns null exactly
when its selected parse attempt — the fenced `json` block's trimmed content
when a block is present, otherwise the raw trimmed text — fails or yields
JSON `null`; on a null result the caller `invoke` increments the
task-breakdown-failure telemetry counter by one (initializing it to 0 when
absent or falsy), returns Failure, and does not retry the breakdown nor run
code generation within that call. -/
theorem breakdown_null_iff_and_failure_handling (resp : List Char)
    (gen : Spec → Option String × Spec) (spec0 : Spec) :
    (userInputBreakdownTask resp = none ↔
       breakdownParseCode resp = none ∨
       breakdownParseCode resp = some JsonVal.null) ∧
    ((invoke none gen spec0).result = ExecutionResultEnum.Failure ∧
     (invoke none gen spec0).spec.appendix.telemetryData.measurements
         MeasurementSystemCodegenTaskBreakdownAttemptFailedCount
       = some (counterBase (spec0.appendix.telemetryData.measurements
           MeasurementSystemCodegenTaskBreakdownAttemptFailedCount) + 1) ∧
     (invoke none gen spec0).breakdownCalls = 1 ∧
     (invoke none gen spec0).codegenCalls = 0) := by
  constructor
  · unfold userInputBreakdownTask jsonNullFilter
    cases hb : breakdownParseCode resp with
    | none => simp
    | some v => cases v <;> simp
  · unfold invoke
    rw [if_pos (by simp [invokeRunsBreakdown, jsTruthyArray])]
    refine ⟨rfl, ?_, rfl, rfl⟩
    simp [incCounter]
